import Mathlib

/-!
Verification of the statistical analysis engine of the automated EDA tool
(`src/eda_engine.py`, with its callers in `src/main.py` and
`src/report_generator.py`).

The engine owns an in-memory column-typed table (a pandas `DataFrame` read
from a CSV file) and exposes five read-only analyses.  We embed the table as
a list of named, typed columns whose cells are present-or-missing values
(numeric cells as exact rationals, categorical cells as strings), and embed
each analysis as a Lean function translated from the Python source, with the
pandas primitives it defers to (`quantile`, `describe`, `isnull`, `nunique`,
`value_counts`, `corr`) modelled from their documented behaviour.
-/

namespace EDA

/-- A column of the table: `num` for an integer/floating dtype column,
`cat` for an object (text) dtype column.  Cells are present or missing
(pandas `NaN`); numeric cells are embedded as exact rationals. -/
inductive Col where
  | num (name : String) (vals : List (Option ℚ))
  | cat (name : String) (vals : List (Option String))
deriving DecidableEq

/-- A table (`DataFrame`): an ordered sequence of named columns. -/
abbrev Table := List Col

/-- Name of a column. -/
def Col.name : Col → String
  | .num n _ => n
  | .cat n _ => n

/-- Number of missing cells in a column (`isnull().sum()` for that column). -/
def Col.missingCount : Col → ℕ
  | .num _ vs => (vs.filter (·.isNone)).length
  | .cat _ vs => (vs.filter (·.isNone)).length

/-- The present (non-missing) values of a column, in row order. -/
def presentVals {α : Type} (vs : List (Option α)) : List α :=
  vs.filterMap id

/-- `select_dtypes(include=[np.number])`: the numeric columns, in table
order, as (name, cells) pairs. -/
def numericCols (t : Table) : List (String × List (Option ℚ)) :=
  t.filterMap fun c => match c with
    | .num n vs => some (n, vs)
    | .cat _ _ => none

/-- `select_dtypes(include=['object', 'category'])`: the categorical
columns, in table order, as (name, cells) pairs. -/
def catCols (t : Table) : List (String × List (Option String)) :=
  t.filterMap fun c => match c with
    | .num _ _ => none
    | .cat n vs => some (n, vs)

/-- Lookup in a Python dict modelled as an association list (first match). -/
def lookup {α : Type} (m : List (String × α)) (k : String) : Option α :=
  (m.find? fun p => p.1 == k).map (·.2)

/-! ## Statistical primitives (pandas/numpy, documented behaviour) -/

/-- Mean of a list of rationals (`sum/n`; junk value `0` on the empty list,
where pandas produces `NaN` — callers guard that case). -/
def qmean (xs : List ℚ) : ℚ :=
  xs.sum / (xs.length : ℚ)

/-- Sum of squared deviations from the mean. -/
def devSqSum (xs : List ℚ) : ℚ :=
  (xs.map fun v => (v - qmean xs) * (v - qmean xs)).sum

/-- `Series.quantile(p)` with the default linear interpolation, as numpy
computes it: drop missing values beforehand (callers pass present values),
sort, take the real index `i = p*(n-1)`, split it as `i = j + g` with
`j = ⌊i⌋`, and blend the two bracketing order statistics as
`(1-g)*s[j] + g*s[j+1]`.  Returns `none` (pandas `NaN`) on an empty list. -/
def quantile (p : ℚ) (xs : List ℚ) : Option ℚ :=
  let s := xs.insertionSort (· ≤ ·)
  match s with
  | [] => none
  | _ =>
    let idx : ℚ := p * ((s.length : ℚ) - 1)
    let j : ℕ := ⌊idx⌋.toNat
    let g : ℚ := idx - (j : ℚ)
    some ((1 - g) * s.getD j 0 + g * s.getD (j + 1) 0)

/-- The spec's statement of the percentile rule: percentile `p` maps to the
real-valued index `p*(n-1)` and interpolates between the two bracketing
sorted values, `s[j] + g*(s[j+1] - s[j])`. -/
def specQuantile (p : ℚ) (xs : List ℚ) : Option ℚ :=
  let s := xs.insertionSort (· ≤ ·)
  match s with
  | [] => none
  | _ =>
    let idx : ℚ := p * ((s.length : ℚ) - 1)
    let j : ℕ := ⌊idx⌋.toNat
    let g : ℚ := idx - (j : ℚ)
    some (s.getD j 0 + g * (s.getD (j + 1) 0 - s.getD j 0))

/-! ## Outlier detection (`EDAEngine.detect_outliers_iqr`) -/

/-- The per-column outlier count of `detect_outliers_iqr`: `Q1` and `Q3`
are the column's 0.25- and 0.75-quantiles over present values, the bounds
are `Q1 - 1.5*IQR` and `Q3 + 1.5*IQR`, and the count is the number of
values strictly outside the bounds.  When the column has no present value
the quantiles are `NaN`, every comparison with the bounds is false (missing
cells also compare false), and the count is `0`. -/
def outlierCount (vs : List (Option ℚ)) : ℕ :=
  let xs := presentVals vs
  match quantile (1/4) xs, quantile (3/4) xs with
  | some q1, some q3 =>
    let iqr := q3 - q1
    let lo := q1 - 3/2 * iqr
    let hi := q3 + 3/2 * iqr
    (xs.filter fun v => decide (v < lo) || decide (v > hi)).length
  | _, _ => 0

/-- `EDAEngine.detect_outliers_iqr`: for each numeric column compute the
IQR outlier count and keep the column iff the count is positive. -/
def detect_outliers_iqr (t : Table) : List (String × ℕ) :=
  (numericCols t).filterMap fun c =>
    let k := outlierCount c.2
    if 0 < k then some (c.1, k) else none

/-! ## Missing-value analysis (`EDAEngine.analyze_missing_values`) -/

/-- `EDAEngine.analyze_missing_values`: per-column missing counts
(`isnull().sum()`), restricted to the columns with a strictly positive
count (`missing[missing > 0]`). -/
def analyze_missing_values (t : Table) : List (String × ℕ) :=
  (t.map fun c => (c.name, c.missingCount)).filter fun p => decide (0 < p.2)

/-! ## Categorical summary (`EDAEngine.get_categorical_summary`) -/

/-- Index of the first occurrence of a value in a column's present values. -/
def firstIdx (xs : List String) (v : String) : ℕ :=
  xs.indexOf v

/-- The distinct values of `xs` in order of first occurrence. -/
def firstDistincts (xs : List String) : List String :=
  (xs.reverse.dedup).reverse

/-- Ordering used to rank value counts: strictly greater count first, and
for equal counts the value encountered first in row order comes first. -/
abbrev vcBefore (xs : List String) (a b : String × ℕ) : Prop :=
  b.2 < a.2 ∨ (a.2 = b.2 ∧ firstIdx xs a.1 ≤ firstIdx xs b.1)

instance (xs : List String) : IsTotal (String × ℕ) (vcBefore xs) := by
  constructor
  intro a b
  rcases lt_trichotomy a.2 b.2 with h | h | h
  · exact Or.inr (Or.inl h)
  · rcases le_total (firstIdx xs a.1) (firstIdx xs b.1) with h2 | h2
    · exact Or.inl (Or.inr ⟨h, h2⟩)
    · exact Or.inr (Or.inr ⟨h.symm, h2⟩)
  · exact Or.inl (Or.inl h)

instance (xs : List String) : IsTrans (String × ℕ) (vcBefore xs) := by
  constructor
  rintro a b c (hab | ⟨hab, hab2⟩) (hbc | ⟨hbc, hbc2⟩)
  · exact Or.inl (hbc.trans hab)
  · exact Or.inl (hbc ▸ hab)
  · exact Or.inl (hab ▸ hbc)
  · exact Or.inr ⟨hab.trans hbc, hab2.trans hbc2⟩

/-- Modelled from the spec: `Series.value_counts()` — occurrence counts of
the distinct present values, sorted by descending count.  The library
leaves the order of equal counts unspecified (an unstable sort over the
hash-table ordering); the spec fixes ties to be broken by first-encountered
order in the column's original row order, which is the policy embedded
here. -/
def value_counts (xs : List String) : List (String × ℕ) :=
  ((firstDistincts xs).map fun v => (v, xs.count v)).insertionSort (vcBefore xs)

/-- `Series.nunique()`: number of distinct present values. -/
def nunique (vs : List (Option String)) : ℕ :=
  (presentVals vs).dedup.length

/-- One entry of the categorical summary. -/
structure CatSummary where
  unique_count : ℕ
  top_freq : List (String × ℕ)
deriving DecidableEq

/-- `EDAEngine.get_categorical_summary`: for every categorical column, its
distinct-value count and `value_counts().head(3)`. -/
def get_categorical_summary (t : Table) : List (String × CatSummary) :=
  (catCols t).map fun c =>
    (c.1, ⟨nunique c.2, (value_counts (presentVals c.2)).take 3⟩)

/-! ## Correlation matrix (`EDAEngine.get_correlations`) -/

/-- Pairwise-complete observations: the aligned row pairs where both
columns have a present value (`corr` masks, per pair of columns, exactly
the rows where either value is missing). -/
def pairComplete : List (Option ℚ) → List (Option ℚ) → List (ℚ × ℚ)
  | some a :: xs, some b :: ys => (a, b) :: pairComplete xs ys
  | _ :: xs, _ :: ys => pairComplete xs ys
  | _, _ => []

/-- Numerator sum `Σ(x-mx)(y-my)` of the Pearson coefficient. -/
def corrNum (ps : List (ℚ × ℚ)) : ℚ :=
  (ps.map fun p =>
    (p.1 - qmean (ps.map Prod.fst)) * (p.2 - qmean (ps.map Prod.snd))).sum

/-- Squared-deviation sum `Σ(x-mx)²` of the Pearson denominator. -/
def corrDenX (ps : List (ℚ × ℚ)) : ℚ :=
  (ps.map fun p =>
    (p.1 - qmean (ps.map Prod.fst)) * (p.1 - qmean (ps.map Prod.fst))).sum

/-- Squared-deviation sum `Σ(y-my)²` of the Pearson denominator. -/
def corrDenY (ps : List (ℚ × ℚ)) : ℚ :=
  (ps.map fun p =>
    (p.2 - qmean (ps.map Prod.snd)) * (p.2 - qmean (ps.map Prod.snd))).sum

/-- Pearson correlation coefficient of two columns over their pairwise
complete observations, as `DataFrame.corr` computes it:
`Σ(x-mx)(y-my) / sqrt(Σ(x-mx)² · Σ(y-my)²)`.  Degenerate cases (no
complete pair, zero variance) divide by zero, which pandas reports as
`NaN` and Lean's real division sends to `0`. -/
noncomputable def pearson (xs ys : List (Option ℚ)) : ℝ :=
  (corrNum (pairComplete xs ys) : ℝ) /
    Real.sqrt ((corrDenX (pairComplete xs ys) : ℝ) * (corrDenY (pairComplete xs ys) : ℝ))

/-- `EDAEngine.get_correlations`: `{}` when there is no numeric column,
otherwise the full matrix `corr().to_dict()`, keyed by column name with one
inner mapping per column (`to_dict` nests as result[column][row]). -/
noncomputable def get_correlations (t : Table) : List (String × List (String × ℝ)) :=
  let nums := numericCols t
  if nums.isEmpty then []
  else nums.map fun a => (a.1, nums.map fun b => (b.1, pearson b.2 a.2))

/-! ## Descriptive statistics (`EDAEngine.get_basic_stats`) -/

/-- A scalar appearing in a `describe().to_dict()` result: a rational
(exact numeric), a real (a standard deviation, which involves a square
root), a Python int, a string, or `NaN` (`undef`). -/
inductive SVal where
  | rat (x : ℚ)
  | real (x : ℝ)
  | nat (n : ℕ)
  | str (s : String)
  | undef

/-- The `describe()` row for one numeric column: count of present values,
mean, sample standard deviation (`ddof=1`, `NaN` below two values),
minimum, the three quartiles, and maximum. -/
noncomputable def numDescribe (vs : List (Option ℚ)) : List (String × SVal) :=
  let xs := presentVals vs
  let optRat : Option ℚ → SVal := fun o => match o with
    | some x => .rat x
    | none => .undef
  [("count", .rat (xs.length : ℚ)),
   ("mean", if xs.length = 0 then .undef else .rat (qmean xs)),
   ("std", if 2 ≤ xs.length then
       .real (Real.sqrt ((devSqSum xs : ℝ) / ((xs.length : ℝ) - 1)))
     else .undef),
   ("min", optRat xs.min?),
   ("25%", optRat (quantile (1/4) xs)),
   ("50%", optRat (quantile (1/2) xs)),
   ("75%", optRat (quantile (3/4) xs)),
   ("max", optRat xs.max?)]

/-- The `describe()` row for one object-dtype column: count of present
values, number of distinct present values, the most frequent value and its
count (`NaN` for an all-missing column). -/
def objDescribe (vs : List (Option String)) : List (String × SVal) :=
  let xs := presentVals vs
  [("count", .nat xs.length),
   ("unique", .nat xs.dedup.length),
   ("top", match (value_counts xs).head? with
     | some p => .str p.1
     | none => .undef),
   ("freq", match (value_counts xs).head? with
     | some p => .nat p.2
     | none => .undef)]

/-- `EDAEngine.get_basic_stats`, i.e. `describe().to_dict()`: with at least
one numeric column, describe exactly the numeric columns; with none,
pandas falls back to describing the object columns; a table without
columns raises `ValueError`. -/
noncomputable def get_basic_stats (t : Table) :
    Except String (List (String × List (String × SVal))) :=
  if t.isEmpty then .error "Cannot describe a DataFrame without columns"
  else if (numericCols t).isEmpty then
    .ok ((catCols t).map fun c => (c.1, objDescribe c.2))
  else
    .ok ((numericCols t).map fun c => (c.1, numDescribe c.2))

/-! ## Engine construction and analysis calls -/

/-- The engine object: it holds the table read at construction. -/
structure EDAEngine where
  df : Table

/-- An argument handed to the constructor: a path to a data source, or an
already-materialized in-memory table. -/
inductive CsvInput where
  | path (p : String)
  | frame (t : Table)

/-- `pd.read_csv`: parses the file behind a path (the parser itself is an
external collaborator, abstracted as `load`); any argument that is neither
a path nor a buffer — in particular an in-memory `DataFrame` — raises
`ValueError`. -/
def read_csv (load : String → Except String Table) : CsvInput → Except String Table
  | .path p => load p
  | .frame _ => .error "Invalid file path or buffer object type"

/-- `EDAEngine.__init__`: stores `pd.read_csv(data_path)` as `self.df`. -/
def EDAEngine.init (load : String → Except String Table) (inp : CsvInput) :
    Except String EDAEngine :=
  (read_csv load inp).map EDAEngine.mk

/-- One of the five analysis methods. -/
inductive AnalysisCall where
  | stats
  | missing
  | cats
  | corr
  | outliers

/-- The result of one analysis method call. -/
inductive AnalysisResult where
  | stats (r : Except String (List (String × List (String × SVal))))
  | missing (r : List (String × ℕ))
  | cats (r : List (String × CatSummary))
  | corr (r : List (String × List (String × ℝ)))
  | outliers (r : List (String × ℕ))

/-- Calling one analysis method on the engine: the method reads `self.df`,
computes its result, and never assigns to `self.df`, so the engine state
after the call is the state before it. -/
noncomputable def callAnalysis (c : AnalysisCall) (e : EDAEngine) :
    AnalysisResult × EDAEngine :=
  match c with
  | .stats => (.stats (get_basic_stats e.df), e)
  | .missing => (.missing (analyze_missing_values e.df), e)
  | .cats => (.cats (get_categorical_summary e.df), e)
  | .corr => (.corr (get_correlations e.df), e)
  | .outliers => (.outliers (detect_outliers_iqr e.df), e)

/-- The engine state after an arbitrary sequence of analysis calls. -/
noncomputable def runCalls (e : EDAEngine) (cs : List AnalysisCall) : EDAEngine :=
  cs.foldl (fun e c => (callAnalysis c e).2) e

/-! ## Sample tables (mirroring the repository's test fixture) -/

/-- The four-column table built by `tests/test_eda.py`. -/
def tblSample : Table :=
  [.num "A" [some 1, some 2, some 3, some 4, some 5],
   .cat "B" [some "x", some "y", some "x", some "z", some "x"],
   .num "C" [some (11/10), some (22/10), none, some (44/10), some (55/10)],
   .num "D" [some 10, some 100, some 10, some 10, some 10]]

/-- The outlier column of the fixture on its own. -/
def tblD : Table := [.num "D" [some 10, some 100, some 10, some 10, some 10]]

/-- A table with a single short numeric column. -/
def tblA : Table := [.num "A" [some 1, some 2, some 3, some 4, some 5]]

/-- A table whose only column is categorical, one row. -/
def tblCat1 : Table := [.cat "B" [some "x"]]

/-- A table whose only column is categorical, two rows. -/
def tblCat2 : Table := [.cat "B" [some "x", some "y"]]

/-- A table with an all-missing numeric column. -/
def tblAllMissing : Table := [.num "E" [none, none]]

/-! ## Helper lemmas -/

theorem quantile_eq_specQuantile (p : ℚ) (xs : List ℚ) :
    quantile p xs = specQuantile p xs := by
  unfold quantile specQuantile
  rcases hs : xs.insertionSort (· ≤ ·) with _ | ⟨a, l⟩
  · rfl
  · simp only
    congr 1
    ring

theorem quantile_isSome (p : ℚ) (xs : List ℚ) (h : xs ≠ []) :
    ∃ q, quantile p xs = some q := by
  unfold quantile
  rcases hs : xs.insertionSort (· ≤ ·) with _ | ⟨a, l⟩
  · exfalso
    apply h
    have hlen := (List.perm_insertionSort (· ≤ ·) xs).length_eq
    rw [hs] at hlen
    exact List.length_eq_zero.mp hlen.symm
  · exact ⟨_, rfl⟩

theorem lookup_map {D E : Type} (l : List (String × D)) (f : String × D → E) (k : String) :
    lookup (l.map fun c => (c.1, f c)) k = ((l.find? fun c => c.1 == k).map f) := by
  induction l with
  | nil => rfl
  | cons a tl ih =>
    rw [List.map_cons]
    unfold lookup
    rw [List.find?_cons, List.find?_cons]
    dsimp only
    cases h : (a.1 == k)
    · exact ih
    · rfl

theorem find?_of_keysNodup {D : Type} (l : List (String × D)) (nm : String) (v : D)
    (hu : (l.map Prod.fst).Nodup) (hm : (nm, v) ∈ l) :
    (l.find? fun c => c.1 == nm) = some (nm, v) := by
  induction l with
  | nil => cases hm
  | cons a tl ih =>
    rw [List.map_cons, List.nodup_cons] at hu
    obtain ⟨hna, hnd⟩ := hu
    rcases List.mem_cons.mp hm with he | hmem
    · rw [← he]
      exact List.find?_cons_of_pos _ (by simp)
    · have hane : (a.1 == nm) = false := by
        refine beq_eq_false_iff_ne.mpr ?_
        intro he2
        exact hna (by rw [he2]; exact List.mem_map_of_mem Prod.fst hmem)
      rw [List.find?_cons, hane]
      exact ih hnd hmem

theorem keysNodup_mem_eq {D : Type} {l : List (String × D)} {nm : String} {v w : D}
    (hu : (l.map Prod.fst).Nodup) (h1 : (nm, v) ∈ l) (h2 : (nm, w) ∈ l) : v = w := by
  have e1 := find?_of_keysNodup l nm v hu h1
  have e2 := find?_of_keysNodup l nm w hu h2
  rw [e1] at e2
  exact congrArg Prod.snd (Option.some.inj e2)

theorem quantile25_D : quantile (1/4) [(10:ℚ), 100, 10, 10, 10] = some 10 := by
  have h1 : Int.toNat 1 = 1 := rfl
  norm_num [quantile, List.insertionSort, List.orderedInsert, List.getD, h1]

theorem quantile75_D : quantile (3/4) [(10:ℚ), 100, 10, 10, 10] = some 10 := by
  have h3 : Int.toNat 3 = 3 := rfl
  norm_num [quantile, List.insertionSort, List.orderedInsert, List.getD, h3]

theorem outlierCount_D :
    outlierCount [some 10, some 100, some 10, some 10, some 10] = 1 := by
  unfold outlierCount
  dsimp only
  rw [show presentVals [some (10:ℚ), some 100, some 10, some 10, some 10]
      = [10, 100, 10, 10, 10] from rfl]
  rw [quantile25_D, quantile75_D]
  norm_num

theorem detect_D : detect_outliers_iqr tblD = [("D", 1)] := by
  unfold detect_outliers_iqr tblD
  rw [show numericCols [Col.num "D" [some 10, some 100, some 10, some 10, some 10]]
      = [("D", [some 10, some 100, some 10, some 10, some 10])] from rfl]
  simp [outlierCount_D]

/-! ## Claims -/

/-- C1: for every numeric column, the outlier detector computes Q1 and Q3
as the 25th and 75th percentiles of the present values by the spec's
linear-interpolation rule (index `p*(n-1)` between bracketing sorted
values), sets the bounds to `Q1 - 1.5*IQR` and `Q3 + 1.5*IQR`, and the
column's count is the number of present values strictly outside the
bounds; a positive count is what the detector returns for the column. -/
theorem c1_outlier_iqr_formula (t : Table) (nm : String) (vs : List (Option ℚ))
    (hmem : (nm, vs) ∈ numericCols t) (hp : presentVals vs ≠ []) :
    ∃ q1 q3,
      specQuantile (1/4) (presentVals vs) = some q1 ∧
      specQuantile (3/4) (presentVals vs) = some q3 ∧
      outlierCount vs = ((presentVals vs).filter fun v =>
        decide (v < q1 - 3/2 * (q3 - q1) ∨ v > q3 + 3/2 * (q3 - q1))).length ∧
      (0 < outlierCount vs → (nm, outlierCount vs) ∈ detect_outliers_iqr t) := by
  obtain ⟨q1, hq1⟩ := quantile_isSome (1/4) _ hp
  obtain ⟨q3, hq3⟩ := quantile_isSome (3/4) _ hp
  refine ⟨q1, q3, ?_, ?_, ?_, ?_⟩
  · rw [← quantile_eq_specQuantile]; exact hq1
  · rw [← quantile_eq_specQuantile]; exact hq3
  · unfold outlierCount
    dsimp only
    rw [hq1, hq3]
    dsimp only
    congr 1
    apply List.filter_congr
    intro v _
    rw [Bool.decide_or]
  · intro hpos
    unfold detect_outliers_iqr
    apply List.mem_filterMap.mpr
    exact ⟨(nm, vs), hmem, by simp [hpos]⟩

/-- Witness for C1 at the fixture column `A = [1,2,3,4,5]`. -/
theorem c1_witness :
    ∃ q1 q3,
      specQuantile (1/4) (presentVals [some (1:ℚ), some 2, some 3, some 4, some 5]) = some q1 ∧
      specQuantile (3/4) (presentVals [some (1:ℚ), some 2, some 3, some 4, some 5]) = some q3 ∧
      outlierCount [some (1:ℚ), some 2, some 3, some 4, some 5]
        = ((presentVals [some (1:ℚ), some 2, some 3, some 4, some 5]).filter fun v =>
            decide (v < q1 - 3/2 * (q3 - q1) ∨ v > q3 + 3/2 * (q3 - q1))).length ∧
      (0 < outlierCount [some (1:ℚ), some 2, some 3, some 4, some 5] →
        ("A", outlierCount [some (1:ℚ), some 2, some 3, some 4, some 5])
          ∈ detect_outliers_iqr tblA) :=
  c1_outlier_iqr_formula tblA "A" _ (by decide) (by decide)

/-- C2: with zero IQR (`Q1 = Q3 = m`, which covers every zero-variance
column) every present value different from `m` is counted as an outlier;
a column with fewer than 4 present values still computes its quartiles by
the interpolation rule (shown on a 3-value column); and on the fixture
column `D = [10,100,10,10,10]` the detector reports `D` with count 1. -/
theorem c2_degenerate_policy :
    (∀ (vs : List (Option ℚ)) (m : ℚ),
        quantile (1/4) (presentVals vs) = some m →
        quantile (3/4) (presentVals vs) = some m →
        outlierCount vs = ((presentVals vs).filter fun v => decide (v ≠ m)).length) ∧
    quantile (1/4) [(1:ℚ), 2, 100] = some (3/2) ∧
    quantile (3/4) [(1:ℚ), 2, 100] = some 51 ∧
    lookup (detect_outliers_iqr tblD) "D" = some 1 := by
  refine ⟨?_, ?_, ?_, ?_⟩
  · intro vs m hq1 hq3
    unfold outlierCount
    dsimp only
    rw [hq1, hq3]
    dsimp only
    congr 1
    apply List.filter_congr
    intro v _
    have hlo : m - 3/2 * (m - m) = m := by ring
    have hhi : m + 3/2 * (m - m) = m := by ring
    rw [hlo, hhi, ← Bool.decide_or, decide_eq_decide]
    exact lt_or_lt_iff_ne
  · have h0 : Int.toNat 0 = 0 := rfl
    norm_num [quantile, List.insertionSort, List.orderedInsert, List.getD, h0]
  · have h1 : Int.toNat 1 = 1 := rfl
    norm_num [quantile, List.insertionSort, List.orderedInsert, List.getD, h1]
  · rw [detect_D]
    rfl

/-- Witness for C2's zero-IQR clause at the fixture column `D`. -/
theorem c2_witness :
    outlierCount [some 10, some 100, some 10, some 10, some 10]
      = ((presentVals [some (10:ℚ), some 100, some 10, some 10, some 10]).filter
          fun v => decide (v ≠ 10)).length :=
  c2_degenerate_policy.1 [some 10, some 100, some 10, some 10, some 10] 10
    quantile25_D quantile75_D

/-- C3: the missing-value analysis returns exactly the columns (of any
type) with a strictly positive missing count, mapped to that count, and
the outlier result never contains a column with count 0. -/
theorem c3_positive_counts_only (t : Table) :
    (∀ nm k, (nm, k) ∈ analyze_missing_values t ↔
      ∃ c, c ∈ t ∧ Col.name c = nm ∧ Col.missingCount c = k ∧ 0 < k) ∧
    (∀ nm k, (nm, k) ∈ detect_outliers_iqr t → 0 < k) := by
  constructor
  · intro nm k
    unfold analyze_missing_values
    rw [List.mem_filter]
    constructor
    · rintro ⟨hmm, hk⟩
      obtain ⟨c, hc, he⟩ := List.mem_map.mp hmm
      exact ⟨c, hc, congrArg Prod.fst he, congrArg Prod.snd he,
        by simpa using of_decide_eq_true hk⟩
    · rintro ⟨c, hc, h1, h2, hk⟩
      refine ⟨List.mem_map.mpr ⟨c, hc, by rw [h1, h2]⟩, ?_⟩
      exact decide_eq_true (by simpa using hk)
  · intro nm k hmem
    unfold detect_outliers_iqr at hmem
    obtain ⟨c, _, he⟩ := List.mem_filterMap.mp hmem
    by_cases h : 0 < outlierCount c.2
    · rw [if_pos h] at he
      have hs := congrArg Prod.snd (Option.some.inj he)
      dsimp only at hs
      exact hs ▸ h
    · rw [if_neg h] at he
      cases he

/-- Witness for C3's outlier-positivity clause at the fixture column `D`,
and an instance of the missing-value iff at the fixture. -/
theorem c3_witness :
    0 < 1 ∧
    (("C", 1) ∈ analyze_missing_values tblSample ↔
      ∃ c, c ∈ tblSample ∧ Col.name c = "C" ∧ Col.missingCount c = 1 ∧ 0 < 1) :=
  ⟨(c3_positive_counts_only tblD).2 "D" 1 (by rw [detect_D]; exact List.mem_singleton.mpr rfl),
   (c3_positive_counts_only tblSample).1 "C" 1⟩

/-! ## Correlation lemmas -/

theorem pairComplete_swap (xs ys : List (Option ℚ)) :
    pairComplete ys xs = (pairComplete xs ys).map Prod.swap := by
  induction xs generalizing ys with
  | nil => cases ys <;> simp [pairComplete]
  | cons o xs ih =>
    cases ys with
    | nil => simp [pairComplete]
    | cons u tl => cases o <;> cases u <;> simp [pairComplete, ih tl]

theorem pairComplete_self (vs : List (Option ℚ)) :
    pairComplete vs vs = (presentVals vs).map fun v => (v, v) := by
  induction vs with
  | nil => rfl
  | cons o tl ih => cases o <;> simp [pairComplete, presentVals, ih]

theorem map_fst_swap (ps : List (ℚ × ℚ)) :
    (ps.map Prod.swap).map Prod.fst = ps.map Prod.snd := by
  rw [List.map_map]; rfl

theorem map_snd_swap (ps : List (ℚ × ℚ)) :
    (ps.map Prod.swap).map Prod.snd = ps.map Prod.fst := by
  rw [List.map_map]; rfl

theorem corrNum_swap (ps : List (ℚ × ℚ)) : corrNum (ps.map Prod.swap) = corrNum ps := by
  unfold corrNum
  rw [map_fst_swap, map_snd_swap, List.map_map]
  have hf : ((fun p : ℚ × ℚ =>
        (p.1 - qmean (ps.map Prod.snd)) * (p.2 - qmean (ps.map Prod.fst))) ∘ Prod.swap)
      = fun p : ℚ × ℚ =>
        (p.1 - qmean (ps.map Prod.fst)) * (p.2 - qmean (ps.map Prod.snd)) := by
    funext p
    show (p.2 - qmean (ps.map Prod.snd)) * (p.1 - qmean (ps.map Prod.fst)) = _
    ring
  rw [hf]

theorem corrDenX_swap (ps : List (ℚ × ℚ)) : corrDenX (ps.map Prod.swap) = corrDenY ps := by
  unfold corrDenX corrDenY
  rw [map_fst_swap, List.map_map]
  rfl

theorem corrDenY_swap (ps : List (ℚ × ℚ)) : corrDenY (ps.map Prod.swap) = corrDenX ps := by
  unfold corrDenX corrDenY
  rw [map_snd_swap, List.map_map]
  rfl

theorem map_fst_diag (l : List ℚ) : ((l.map fun v => (v, v)).map Prod.fst) = l := by
  rw [List.map_map]
  exact List.map_id l

theorem map_snd_diag (l : List ℚ) : ((l.map fun v => (v, v)).map Prod.snd) = l := by
  rw [List.map_map]
  exact List.map_id l

theorem corrNum_diag (l : List ℚ) : corrNum (l.map fun v => (v, v)) = devSqSum l := by
  unfold corrNum devSqSum
  rw [map_fst_diag, map_snd_diag, List.map_map]
  rfl

theorem corrDenX_diag (l : List ℚ) : corrDenX (l.map fun v => (v, v)) = devSqSum l := by
  unfold corrDenX devSqSum
  rw [map_fst_diag, List.map_map]
  rfl

theorem corrDenY_diag (l : List ℚ) : corrDenY (l.map fun v => (v, v)) = devSqSum l := by
  unfold corrDenY devSqSum
  rw [map_snd_diag, List.map_map]
  rfl

theorem devSqSum_nonneg (l : List ℚ) : 0 ≤ devSqSum l := by
  unfold devSqSum
  apply List.sum_nonneg
  intro x hx
  obtain ⟨v, _, rfl⟩ := List.mem_map.mp hx
  exact mul_self_nonneg _

theorem pearson_comm (xs ys : List (Option ℚ)) : pearson ys xs = pearson xs ys := by
  unfold pearson
  rw [pairComplete_swap xs ys, corrNum_swap, corrDenX_swap, corrDenY_swap, mul_comm]

theorem pearson_self (vs : List (Option ℚ)) (h : devSqSum (presentVals vs) ≠ 0) :
    pearson vs vs = 1 := by
  unfold pearson
  rw [pairComplete_self, corrNum_diag, corrDenX_diag, corrDenY_diag]
  have h0 : (0:ℝ) ≤ (devSqSum (presentVals vs) : ℝ) := by
    exact_mod_cast devSqSum_nonneg _
  rw [Real.sqrt_mul_self h0]
  apply div_self
  exact_mod_cast h

theorem corr_entry (t : Table) (x y : String) :
    (lookup (get_correlations t) x).bind (fun row => lookup row y)
      = (((numericCols t).find? fun c => c.1 == x).bind fun a =>
          ((numericCols t).find? fun c => c.1 == y).map fun b => pearson b.2 a.2) := by
  unfold get_correlations
  by_cases hne : (numericCols t).isEmpty
  · rw [if_pos hne]
    rw [List.isEmpty_iff.mp hne]
    rfl
  · rw [if_neg hne]
    rw [lookup_map]
    cases hfx : (numericCols t).find? fun c => c.1 == x with
    | none => rfl
    | some a =>
      show lookup ((numericCols t).map fun b => (b.1, pearson b.2 a.2)) y = _
      exact lookup_map (numericCols t) (fun b => pearson b.2 a.2) y

/-- C4: the correlation result is a full symmetric matrix over the numeric
columns — entry (A,B) equals entry (B,A) for all names A, B — and the
diagonal entry of a numeric column with at least one present value and
nonzero variance is exactly 1. -/
theorem c4_correlation_matrix (t : Table) :
    (∀ x y, (lookup (get_correlations t) x).bind (fun row => lookup row y)
        = (lookup (get_correlations t) y).bind (fun row => lookup row x)) ∧
    (∀ nm vs, (nm, vs) ∈ numericCols t →
        ((numericCols t).map Prod.fst).Nodup →
        presentVals vs ≠ [] → devSqSum (presentVals vs) ≠ 0 →
        (lookup (get_correlations t) nm).bind (fun row => lookup row nm) = some 1) := by
  constructor
  · intro x y
    rw [corr_entry, corr_entry]
    cases hfx : (numericCols t).find? fun c => c.1 == x with
    | none =>
      cases hfy : (numericCols t).find? fun c => c.1 == y with
      | none => rfl
      | some b => rfl
    | some a =>
      cases hfy : (numericCols t).find? fun c => c.1 == y with
      | none => rfl
      | some b =>
        show some (pearson b.2 a.2) = some (pearson a.2 b.2)
        rw [pearson_comm]
  · intro nm vs hmem hnodup _ hvar
    rw [corr_entry, find?_of_keysNodup _ nm vs hnodup hmem]
    show ((some (nm, vs)).map fun b => pearson b.2 vs) = some 1
    show some (pearson vs vs) = some 1
    rw [pearson_self vs hvar]

theorem devSqSum_A : devSqSum (presentVals [some (1:ℚ), some 2, some 3, some 4, some 5]) ≠ 0 := by
  norm_num [devSqSum, qmean, presentVals, List.filterMap]

/-- Witness for C4 at the one-column table `A = [1,2,3,4,5]`. -/
theorem c4_witness :
    ((lookup (get_correlations tblA) "A").bind (fun row => lookup row "B")
        = (lookup (get_correlations tblA) "B").bind (fun row => lookup row "A")) ∧
    (lookup (get_correlations tblA) "A").bind (fun row => lookup row "A") = some 1 :=
  ⟨(c4_correlation_matrix tblA).1 "A" "B",
   (c4_correlation_matrix tblA).2 "A" [some 1, some 2, some 3, some 4, some 5]
     (by decide) (by decide) (by decide) devSqSum_A⟩

/-! ## Empty selections and descriptive statistics -/

/-- C5 (amended): with zero numeric columns the correlation result and the
outlier result are empty, and with zero categorical columns the
categorical summary is empty; the basic-statistics call on a nonempty
table does not fail, but with zero numeric columns it falls back to
describing the non-numeric columns instead of returning an empty result
(see the counterexample). -/
theorem c5_empty_selection :
    (∀ t : Table, numericCols t = [] →
      get_correlations t = [] ∧ detect_outliers_iqr t = [] ∧
      (t ≠ [] → ∃ r, get_basic_stats t = .ok r)) ∧
    (∀ t : Table, catCols t = [] → get_categorical_summary t = []) := by
  constructor
  · intro t hn
    refine ⟨?_, ?_, ?_⟩
    · unfold get_correlations
      dsimp only
      rw [hn]
      rfl
    · unfold detect_outliers_iqr
      rw [hn]
      rfl
    · intro ht
      unfold get_basic_stats
      rw [if_neg (by simpa [List.isEmpty_iff] using ht), if_pos (by simp [hn])]
      exact ⟨_, rfl⟩
  · intro t hc
    unfold get_categorical_summary
    rw [hc]
    rfl

/-- Counterexample to C5 as stated: a table with zero numeric columns on
which the basic-statistics analysis returns a non-empty result (the pandas
`describe` fallback over the object columns), not an empty/neutral one. -/
theorem c5_counterexample :
    numericCols tblCat1 = [] ∧ get_basic_stats tblCat1 ≠ .ok [] := by
  refine ⟨by decide, ?_⟩
  intro h
  rw [show get_basic_stats tblCat1 = .ok [("B", objDescribe [some "x"])] from rfl] at h
  exact List.cons_ne_nil _ _ (Except.ok.inj h)

/-- Witness for C5 at a categorical-only table and a numeric-only table. -/
theorem c5_witness :
    (get_correlations tblCat1 = [] ∧ detect_outliers_iqr tblCat1 = [] ∧
      (∃ r, get_basic_stats tblCat1 = .ok r)) ∧
    get_categorical_summary tblA = [] :=
  ⟨⟨(c5_empty_selection.1 tblCat1 (by decide)).1,
    (c5_empty_selection.1 tblCat1 (by decide)).2.1,
    (c5_empty_selection.1 tblCat1 (by decide)).2.2 (by decide)⟩,
   c5_empty_selection.2 tblA (by decide)⟩

/-- C6 (amended): with at least one numeric column, the descriptive
statistics describe exactly the numeric columns, keyed by name, with the
count of present values, mean `sum/n`, sample (n−1 denominator) standard
deviation, minimum, the three quartiles by the spec's interpolation rule,
and maximum; `NaN` sentinels appear where a statistic is undefined. -/
theorem c6_basic_stats (t : Table) (h : numericCols t ≠ []) :
    get_basic_stats t = .ok ((numericCols t).map fun c =>
      (c.1,
       [("count", SVal.rat ((presentVals c.2).length : ℚ)),
        ("mean", if (presentVals c.2).length = 0 then SVal.undef
          else SVal.rat ((presentVals c.2).sum / ((presentVals c.2).length : ℚ))),
        ("std", if 2 ≤ (presentVals c.2).length then
            SVal.real (Real.sqrt ((devSqSum (presentVals c.2) : ℝ) /
              (((presentVals c.2).length : ℝ) - 1)))
          else SVal.undef),
        ("min", match (presentVals c.2).min? with
          | some m => SVal.rat m
          | none => SVal.undef),
        ("25%", match specQuantile (1/4) (presentVals c.2) with
          | some q => SVal.rat q
          | none => SVal.undef),
        ("50%", match specQuantile (1/2) (presentVals c.2) with
          | some q => SVal.rat q
          | none => SVal.undef),
        ("75%", match specQuantile (3/4) (presentVals c.2) with
          | some q => SVal.rat q
          | none => SVal.undef),
        ("max", match (presentVals c.2).max? with
          | some m => SVal.rat m
          | none => SVal.undef)])) := by
  have ht : ¬ t.isEmpty = true := by
    intro he
    apply h
    rw [List.isEmpty_iff.mp he]
    rfl
  unfold get_basic_stats
  rw [if_neg ht, if_neg (by simpa [List.isEmpty_iff] using h)]
  refine congrArg Except.ok ?_
  have hfun : (fun c : String × List (Option ℚ) => (c.1, numDescribe c.2))
      = (fun c : String × List (Option ℚ) =>
        ((c.1,
         [("count", SVal.rat ((presentVals c.2).length : ℚ)),
          ("mean", if (presentVals c.2).length = 0 then SVal.undef
            else SVal.rat ((presentVals c.2).sum / ((presentVals c.2).length : ℚ))),
          ("std", if 2 ≤ (presentVals c.2).length then
              SVal.real (Real.sqrt ((devSqSum (presentVals c.2) : ℝ) /
                (((presentVals c.2).length : ℝ) - 1)))
            else SVal.undef),
          ("min", match (presentVals c.2).min? with
            | some m => SVal.rat m
            | none => SVal.undef),
          ("25%", match specQuantile (1/4) (presentVals c.2) with
            | some q => SVal.rat q
            | none => SVal.undef),
          ("50%", match specQuantile (1/2) (presentVals c.2) with
            | some q => SVal.rat q
            | none => SVal.undef),
          ("75%", match specQuantile (3/4) (presentVals c.2) with
            | some q => SVal.rat q
            | none => SVal.undef),
          ("max", match (presentVals c.2).max? with
            | some m => SVal.rat m
            | none => SVal.undef)]) : String × List (String × SVal))) := by
    funext c
    unfold numDescribe
    dsimp only
    rw [quantile_eq_specQuantile (1/4), quantile_eq_specQuantile (1/2),
      quantile_eq_specQuantile (3/4)]
    rfl
  rw [hfun]

/-- Counterexample to C6 as stated: on a table with zero numeric columns
the result is keyed by a categorical column (the `describe` fallback), so
it is neither restricted to numeric columns nor empty. -/
theorem c6_counterexample :
    numericCols tblCat2 = [] ∧ get_basic_stats tblCat2 ≠ .ok [] := by
  refine ⟨by decide, ?_⟩
  intro h
  rw [show get_basic_stats tblCat2
      = .ok [("B", objDescribe [some "x", some "y"])] from rfl] at h
  exact List.cons_ne_nil _ _ (Except.ok.inj h)

/-- Witness for C6 at the one-column table `A = [1,2,3,4,5]`. -/
theorem c6_witness :
    numericCols tblA ≠ [] ∧
    get_basic_stats tblA = .ok ((numericCols tblA).map fun c =>
      (c.1,
       [("count", SVal.rat ((presentVals c.2).length : ℚ)),
        ("mean", if (presentVals c.2).length = 0 then SVal.undef
          else SVal.rat ((presentVals c.2).sum / ((presentVals c.2).length : ℚ))),
        ("std", if 2 ≤ (presentVals c.2).length then
            SVal.real (Real.sqrt ((devSqSum (presentVals c.2) : ℝ) /
              (((presentVals c.2).length : ℝ) - 1)))
          else SVal.undef),
        ("min", match (presentVals c.2).min? with
          | some m => SVal.rat m
          | none => SVal.undef),
        ("25%", match specQuantile (1/4) (presentVals c.2) with
          | some q => SVal.rat q
          | none => SVal.undef),
        ("50%", match specQuantile (1/2) (presentVals c.2) with
          | some q => SVal.rat q
          | none => SVal.undef),
        ("75%", match specQuantile (3/4) (presentVals c.2) with
          | some q => SVal.rat q
          | none => SVal.undef),
        ("max", match (presentVals c.2).max? with
          | some m => SVal.rat m
          | none => SVal.undef)])) :=
  ⟨by decide, c6_basic_stats tblA (by decide)⟩

/-! ## Categorical summary claim -/

/-- C7: for every categorical column, the summary contains an entry whose
`unique_count` is the number of distinct present values and whose
`top_freq` has at most 3 entries with correct occurrence counts over the
present values, ordered by strictly descending count with frequency ties
broken by first-encountered order, and with no repeated key. -/
theorem c7_categorical_summary (t : Table) (nm : String) (vs : List (Option String))
    (h : (nm, vs) ∈ catCols t) :
    ∃ s : CatSummary, (nm, s) ∈ get_categorical_summary t ∧
      s.unique_count = (presentVals vs).toFinset.card ∧
      s.top_freq.length ≤ 3 ∧
      s.top_freq.Pairwise (fun a b => b.2 < a.2 ∨
        (a.2 = b.2 ∧ firstIdx (presentVals vs) a.1 ≤ firstIdx (presentVals vs) b.1)) ∧
      (∀ v k, (v, k) ∈ s.top_freq → v ∈ presentVals vs ∧ k = (presentVals vs).count v) ∧
      (s.top_freq.map Prod.fst).Nodup := by
  refine ⟨⟨nunique vs, (value_counts (presentVals vs)).take 3⟩, ?_, ?_, ?_, ?_, ?_, ?_⟩
  · exact List.mem_map.mpr ⟨(nm, vs), h, rfl⟩
  · show nunique vs = _
    unfold nunique
    exact (List.card_toFinset _).symm
  · show ((value_counts (presentVals vs)).take 3).length ≤ 3
    rw [List.length_take]
    exact min_le_left _ _
  · have hs : (value_counts (presentVals vs)).Pairwise (vcBefore (presentVals vs)) :=
      List.sorted_insertionSort (vcBefore (presentVals vs)) _
    exact List.Pairwise.sublist (List.take_sublist _ _) hs
  · intro v k hvk
    have hvc : (v, k) ∈ value_counts (presentVals vs) := List.mem_of_mem_take hvk
    have hperm := List.perm_insertionSort (vcBefore (presentVals vs))
      ((firstDistincts (presentVals vs)).map fun w => (w, (presentVals vs).count w))
    have hmm := hperm.mem_iff.mp hvc
    obtain ⟨w, hw, he⟩ := List.mem_map.mp hmm
    have hv : w = v := congrArg Prod.fst he
    have hk : (presentVals vs).count w = k := congrArg Prod.snd he
    constructor
    · have hmem2 : w ∈ (presentVals vs).reverse.dedup.reverse := hw
      rw [List.mem_reverse, List.mem_dedup, List.mem_reverse] at hmem2
      rw [← hv]
      exact hmem2
    · rw [← hv]
      exact hk.symm
  · have hnd : (firstDistincts (presentVals vs)).Nodup := by
      unfold firstDistincts
      exact List.nodup_reverse.mpr ((presentVals vs).reverse.nodup_dedup)
    have hmm2 : (((firstDistincts (presentVals vs)).map
        fun w => (w, (presentVals vs).count w)).map Prod.fst)
        = firstDistincts (presentVals vs) := by
      rw [List.map_map]
      exact List.map_id _
    have hperm := (List.perm_insertionSort (vcBefore (presentVals vs))
      ((firstDistincts (presentVals vs)).map fun w => (w, (presentVals vs).count w))).map
        Prod.fst
    rw [hmm2] at hperm
    have hvc : ((value_counts (presentVals vs)).map Prod.fst).Nodup :=
      hperm.nodup_iff.mpr hnd
    exact List.Nodup.sublist ((List.take_sublist _ _).map Prod.fst) hvc

/-- Witness for C7 at the fixture column `B = [x,y,x,z,x]`. -/
theorem c7_witness :
    ∃ s : CatSummary, ("B", s) ∈ get_categorical_summary tblSample ∧
      s.unique_count
        = (presentVals [some "x", some "y", some "x", some "z", some "x"]).toFinset.card ∧
      s.top_freq.length ≤ 3 ∧
      s.top_freq.Pairwise (fun a b => b.2 < a.2 ∨
        (a.2 = b.2 ∧
          firstIdx (presentVals [some "x", some "y", some "x", some "z", some "x"]) a.1
            ≤ firstIdx (presentVals [some "x", some "y", some "x", some "z", some "x"]) b.1)) ∧
      (∀ v k, (v, k) ∈ s.top_freq →
        v ∈ presentVals [some "x", some "y", some "x", some "z", some "x"] ∧
        k = (presentVals [some "x", some "y", some "x", some "z", some "x"]).count v) ∧
      (s.top_freq.map Prod.fst).Nodup :=
  c7_categorical_summary tblSample "B"
    [some "x", some "y", some "x", some "z", some "x"] (by decide)

/-! ## Constructor and purity claims -/

/-- C8: the engine's constructor only ever parses its argument with
`pd.read_csv`, so a path works but an already-materialized in-memory table
raises `ValueError` — exactly what happens when `ReportGenerator.__init__`
passes its `DataFrame` to `EDAEngine` (report_generator.py line 21). -/
theorem c8_constructor_frame :
    EDAEngine.init (fun _ => Except.ok tblSample) (.path "test_data.csv")
      = .ok ⟨tblSample⟩ ∧
    EDAEngine.init (fun _ => Except.ok tblSample) (.frame tblSample)
      = .error "Invalid file path or buffer object type" :=
  ⟨rfl, rfl⟩

theorem callAnalysis_snd (c : AnalysisCall) (e : EDAEngine) : (callAnalysis c e).2 = e := by
  cases c <;> rfl

/-- C9: no sequence of analysis calls changes the engine's table, and
calling the same analysis twice yields the identical result. -/
theorem c9_idempotent_no_mutation (e : EDAEngine) (cs : List AnalysisCall) (c : AnalysisCall) :
    runCalls e cs = e ∧
    (callAnalysis c ((callAnalysis c e).2)).1 = (callAnalysis c e).1 := by
  constructor
  · induction cs generalizing e with
    | nil => rfl
    | cons c' cs' ih =>
      show runCalls ((callAnalysis c' e).2) cs' = e
      rw [callAnalysis_snd]
      exact ih e
  · rw [callAnalysis_snd]

/-- C10: a numeric column whose values are all missing has outlier count 0
(the `NaN` quantiles make every bound comparison false) and never appears
in the outlier result. -/
theorem c10_all_missing (t : Table) (nm : String) (vs : List (Option ℚ))
    (hmem : (nm, vs) ∈ numericCols t) (hp : presentVals vs = [])
    (hu : ((numericCols t).map Prod.fst).Nodup) :
    outlierCount vs = 0 ∧ ∀ k, (nm, k) ∉ detect_outliers_iqr t := by
  have hoc : outlierCount vs = 0 := by
    unfold outlierCount
    dsimp only
    rw [hp]
    rfl
  refine ⟨hoc, ?_⟩
  intro k hk
  unfold detect_outliers_iqr at hk
  obtain ⟨c, hc, he⟩ := List.mem_filterMap.mp hk
  by_cases h : 0 < outlierCount c.2
  · rw [if_pos h] at he
    have h1 : c.1 = nm := congrArg Prod.fst (Option.some.inj he)
    have hcc : (nm, c.2) ∈ numericCols t := by
      rw [← h1]
      simpa using hc
    have h2 := keysNodup_mem_eq hu hcc hmem
    rw [h2, hoc] at h
    exact absurd h (lt_irrefl 0)
  · rw [if_neg h] at he
    cases he

/-- Witness for C10 at a table with one all-missing numeric column. -/
theorem c10_witness :
    outlierCount [none, none] = 0 ∧ ∀ k, ("E", k) ∉ detect_outliers_iqr tblAllMissing :=
  c10_all_missing tblAllMissing "E" [none, none] (by decide) (by decide) (by decide)

end EDA
